import Mathlib

/-!
Verification of the `csvauth` / `envauth` credential store of
`therootcompany/golib` against its design specification.

The Go sources are embedded shallowly:

* Go byte slices are `List Nat` (each element conceptually `< 256`);
* Go strings are Lean `String`; `[]byte(s)` / `string(bs)` become
  `goBytes` / `goString` (faithful for the ASCII data these claims use);
* Go maps are association lists whose `lookup` finds the most recent
  insertion (last-write-wins, as in a Go map);
* fallible operations return `Option` / a result + error-tag pair, and a
  Go `panic` is a distinguished outcome constructor;
* the cryptographic primitives from the Go standard library and
  `golang.org/x/crypto` (SHA-256, PBKDF2, bcrypt, AES-128-GCM,
  HMAC-SHA-256) are opaque parameters collected in `CryptoPrims`;
  theorems assume only the pointwise facts they need about them
  (e.g. two specific digests differ), and witnesses instantiate them
  with a small executable stand-in (`testPrims`);
* `encoding/base64` RawURLEncoding and the relevant `strings` /
  `strconv` helpers are implemented concretely and verified
  (round-trip lemmas below).

Concurrency (the store's mutex) is out of scope; all operations are
modelled as pure state transformers.
-/

/-- Go `[]byte(s)` for the ASCII strings used throughout this code base. -/
def goBytes (s : String) : List Nat :=
  s.toList.map Char.toNat

/-- Go `string(bs)` for byte lists holding valid (in practice ASCII) data. -/
def goString (bs : List Nat) : String :=
  String.mk (bs.map Char.ofNat)

/-- Go `var dst [n]byte; copy(dst[:], src)`: the first `n` bytes of `src`,
zero-padded on the right when `src` is shorter than `n`. -/
def goCopyFixed (n : Nat) (src : List Nat) : List Nat :=
  src.take n ++ List.replicate (n - src.length) 0

theorem goCopyFixed_length (n : Nat) (src : List Nat) :
    (goCopyFixed n src).length = n := by
  simp [goCopyFixed]
  omega

theorem goCopyFixed_of_le (n : Nat) (src : List Nat) (h : n ≤ src.length) :
    goCopyFixed n src = src.take n := by
  simp [goCopyFixed]
  omega

theorem goCopyFixed_of_lt (n : Nat) (src : List Nat) (h : src.length < n) :
    goCopyFixed n src = src ++ List.replicate (n - src.length) 0 := by
  simp [goCopyFixed, List.take_of_length_le (Nat.le_of_lt h)]

theorem goBytes_goString (bs : List Nat) (h : ∀ b ∈ bs, b < 256) :
    goBytes (goString bs) = bs := by
  induction bs with
  | nil => rfl
  | cons b bs ih =>
      have hb : b < 256 := h b (List.mem_cons_self b bs)
      have hrest := ih fun x hx => h x (List.mem_cons_of_mem b hx)
      have hchar : (Char.ofNat b).toNat = b := by
        have hv : b.isValidChar := Or.inl (lt_trans hb (by norm_num))
        simp [Char.ofNat, hv, Char.ofNatAux, Char.toNat, UInt32.toNat,
          BitVec.toNat_ofNatLt]
      simpa [goBytes, goString] using And.intro hchar (by
        simpa [goBytes, goString] using hrest)

theorem goString_goBytes (s : String) : goString (goBytes s) = s := by
  have h1 : (s.toList.map Char.toNat).map Char.ofNat = s.toList := by
    rw [List.map_map]
    have h2 : (Char.ofNat ∘ Char.toNat) = id := by
      funext c
      simp [Char.ofNat_toNat]
    simp [h2]
  show String.mk ((s.toList.map Char.toNat).map Char.ofNat) = s
  rw [h1]
  cases s
  rfl

/-!
Concrete model of Go `encoding/base64` `RawURLEncoding` (URL-safe
alphabet, no padding, non-strict decoding — Go's default decoder does
not reject non-zero trailing bits).
-/

/-- The base64url alphabet: sextet value to character. -/
def b64Char (n : Nat) : Char :=
  if n < 26 then Char.ofNat (65 + n)
  else if n < 52 then Char.ofNat (97 + (n - 26))
  else if n < 62 then Char.ofNat (48 + (n - 52))
  else if n = 62 then Char.ofNat 45
  else Char.ofNat 95

/-- The base64url alphabet: character back to sextet value. -/
def b64Val (c : Char) : Option Nat :=
  let n := c.toNat
  if 65 ≤ n ∧ n ≤ 90 then some (n - 65)
  else if 97 ≤ n ∧ n ≤ 122 then some (26 + (n - 97))
  else if 48 ≤ n ∧ n ≤ 57 then some (52 + (n - 48))
  else if n = 45 then some 62
  else if n = 95 then some 63
  else none

theorem b64Val_b64Char : ∀ n, n < 64 → b64Val (b64Char n) = some n := by
  decide

/-- Bytes to sextets, processing three bytes at a time (RFC 4648). -/
def encodeSextets : List Nat → List Nat
  | [] => []
  | [a] => [a / 4, a % 4 * 16]
  | [a, b] => [a / 4, a % 4 * 16 + b / 16, b % 16 * 4]
  | a :: b :: c :: rest =>
      a / 4 :: (a % 4 * 16 + b / 16) :: (b % 16 * 4 + c / 64) :: c % 64 ::
        encodeSextets rest

/-- Sextets back to bytes; `none` on an impossible group length
(1 leftover sextet), matching the Go decoder's corrupt-input error. -/
def decodeSextets : List Nat → Option (List Nat)
  | [] => some []
  | [_] => none
  | [s1, s2] => some [s1 * 4 + s2 / 16]
  | [s1, s2, s3] => some [s1 * 4 + s2 / 16, s2 % 16 * 16 + s3 / 4]
  | s1 :: s2 :: s3 :: s4 :: rest =>
      (decodeSextets rest).map fun bs =>
        (s1 * 4 + s2 / 16) :: (s2 % 16 * 16 + s3 / 4) :: (s3 % 4 * 64 + s4) :: bs

theorem decodeSextets_encodeSextets :
    ∀ l : List Nat, (∀ b ∈ l, b < 256) →
      decodeSextets (encodeSextets l) = some l
  | [], _ => rfl
  | [a], h => by
      have ha : a < 256 := h a (by simp)
      simp [encodeSextets, decodeSextets]
      omega
  | [a, b], h => by
      have ha : a < 256 := h a (by simp)
      have hb : b < 256 := h b (by simp)
      simp [encodeSextets, decodeSextets]
      constructor <;> omega
  | a :: b :: c :: rest, h => by
      have ha : a < 256 := h a (by simp)
      have hb : b < 256 := h b (by simp)
      have hc : c < 256 := h c (by simp)
      have ih := decodeSextets_encodeSextets rest
        (fun x hx => h x (by simp [hx]))
      simp [encodeSextets, decodeSextets, ih]
      refine ⟨by omega, by omega, by omega⟩

theorem encodeSextets_lt :
    ∀ l : List Nat, (∀ b ∈ l, b < 256) → ∀ s ∈ encodeSextets l, s < 64
  | [], _ => by simp [encodeSextets]
  | [a], h => by
      have ha : a < 256 := h a (by simp)
      simp [encodeSextets]
      omega
  | [a, b], h => by
      have ha : a < 256 := h a (by simp)
      have hb : b < 256 := h b (by simp)
      simp [encodeSextets]
      refine ⟨by omega, by omega, by omega⟩
  | a :: b :: c :: rest, h => by
      have ha : a < 256 := h a (by simp)
      have hb : b < 256 := h b (by simp)
      have hc : c < 256 := h c (by simp)
      have ih := encodeSextets_lt rest (fun x hx => h x (by simp [hx]))
      simp [encodeSextets]
      refine ⟨by omega, by omega, by omega, by omega, ih⟩

/-- Decode a character list through the alphabet, failing on any
character outside it. -/
def decodeChars : List Char → Option (List Nat)
  | [] => some []
  | c :: cs =>
      match b64Val c, decodeChars cs with
      | some v, some vs => some (v :: vs)
      | _, _ => none

theorem decodeChars_map_b64Char :
    ∀ l : List Nat, (∀ s ∈ l, s < 64) →
      decodeChars (l.map b64Char) = some l := by
  intro l
  induction l with
  | nil => intro _; rfl
  | cons s rest ih =>
      intro h
      have hs : s < 64 := h s (by simp)
      have hrest := ih fun x hx => h x (by simp [hx])
      simp [decodeChars, b64Val_b64Char s hs, hrest]

/-- Go `base64.RawURLEncoding.EncodeToString`. -/
def b64encode (l : List Nat) : String :=
  String.mk ((encodeSextets l).map b64Char)

/-- Go `base64.RawURLEncoding.DecodeString`; `none` models a decode error
(the Go function also returns partially decoded bytes alongside the
error, which callers here either ignore or propagate). -/
def b64decode (s : String) : Option (List Nat) :=
  (decodeChars s.toList).bind decodeSextets

theorem b64decode_b64encode (l : List Nat) (h : ∀ b ∈ l, b < 256) :
    b64decode (b64encode l) = some l := by
  have htl : (String.mk ((encodeSextets l).map b64Char)).toList
      = (encodeSextets l).map b64Char := rfl
  simp [b64decode, b64encode, htl,
    decodeChars_map_b64Char (encodeSextets l) (encodeSextets_lt l h),
    decodeSextets_encodeSextets l h]

/-!
Concrete models of the Go `strings` and `strconv` helpers the sources
use: `strings.Split(s, " ")`, `strings.Join(ss, " ")`,
`strings.ReplaceAll(s, ",", " ")`, `strconv.Atoi`, `strconv.Itoa`.
-/

/-- Split a character list on a separator character; like Go
`strings.Split`, the result is never empty and keeps empty groups. -/
def splitChar (sep : Char) : List Char → List (List Char)
  | [] => [[]]
  | c :: cs =>
      let r := splitChar sep cs
      if c = sep then [] :: r
      else
        match r with
        | [] => [[c]]
        | g :: gs => (c :: g) :: gs

/-- Join character-list groups with a separator, as in `strings.Join`. -/
def joinChar (sep : Char) : List (List Char) → List Char
  | [] => []
  | [g] => g
  | g :: gs => g ++ sep :: joinChar sep gs

theorem splitChar_ne_nil (sep : Char) : ∀ l, splitChar sep l ≠ []
  | [] => by simp [splitChar]
  | c :: cs => by
      simp only [splitChar]
      by_cases h : c = sep
      · simp [h]
      · simp only [if_neg h]
        cases hr : splitChar sep cs with
        | nil => simp
        | cons g gs => simp

theorem splitChar_append_nosep (sep : Char) (g l : List Char)
    (hg : sep ∉ g) :
    splitChar sep (g ++ l) =
      (g ++ (splitChar sep l).headI) :: (splitChar sep l).tail := by
  induction g with
  | nil =>
      simp only [List.nil_append]
      cases h : splitChar sep l with
      | nil => exact absurd h (splitChar_ne_nil sep l)
      | cons a as => simp
  | cons c cs ih =>
      have hc : c ≠ sep := fun h => hg (h ▸ List.mem_cons_self c cs)
      have hcs : sep ∉ cs := fun h => hg (List.mem_cons_of_mem c h)
      simp only [List.cons_append, splitChar, if_neg hc]
      rw [show cs.append l = cs ++ l from rfl, ih hcs]

theorem splitChar_joinChar (sep : Char) :
    ∀ xs : List (List Char), xs ≠ [] → (∀ g ∈ xs, sep ∉ g) →
      splitChar sep (joinChar sep xs) = xs
  | [], h, _ => absurd rfl h
  | [g], _, hs => by
      have hg : sep ∉ g := hs g (by simp)
      simpa [joinChar, splitChar] using splitChar_append_nosep sep g [] hg
  | g :: g2 :: gs, _, hs => by
      have hg : sep ∉ g := hs g (by simp)
      have ih := splitChar_joinChar sep (g2 :: gs) (by simp)
        (fun x hx => hs x (List.mem_cons_of_mem g hx))
      have key := splitChar_append_nosep sep g (sep :: joinChar sep (g2 :: gs)) hg
      have hsplit : splitChar sep (sep :: joinChar sep (g2 :: gs))
          = [] :: splitChar sep (joinChar sep (g2 :: gs)) := by
        simp [splitChar]
      rw [show joinChar sep (g :: g2 :: gs)
            = g ++ sep :: joinChar sep (g2 :: gs) from rfl]
      rw [key, hsplit, ih]
      simp

/-- Go `strings.Split(s, " ")`. -/
def goSplitSpace (s : String) : List String :=
  (splitChar ' ' s.toList).map String.mk

/-- Go `strings.Join(ss, " ")`. -/
def goJoinSpace (ss : List String) : String :=
  String.mk (joinChar ' ' (ss.map String.toList))

/-- Go `strings.ReplaceAll(s, ",", " ")` (single-character patterns). -/
def goReplaceCommaSpace (s : String) : String :=
  String.mk (s.toList.map fun c => if c = ',' then ' ' else c)

/-- A string is space- and comma-free (such fields survive the
join-then-split round trip of the record encoding). -/
def plainField (s : String) : Prop :=
  ' ' ∉ s.toList ∧ ',' ∉ s.toList

instance (s : String) : Decidable (plainField s) := by
  unfold plainField
  infer_instance

theorem goReplaceCommaSpace_id (s : String) (h : ',' ∉ s.toList) :
    goReplaceCommaSpace s = s := by
  have hmap : s.toList.map (fun c => if c = ',' then ' ' else c) = s.toList := by
    have := List.map_congr_left (l := s.toList)
      (f := fun c => if c = ',' then ' ' else c) (g := id)
      (fun c hc => by
        have hne : c ≠ ',' := fun hcc => h (hcc ▸ hc)
        simp [hne])
    simpa using this
  rw [goReplaceCommaSpace, hmap]
  cases s
  rfl

theorem goSplitSpace_goJoinSpace (ss : List String) (hne : ss ≠ [])
    (hs : ∀ s ∈ ss, ' ' ∉ s.toList) :
    goSplitSpace (goJoinSpace ss) = ss := by
  have hmapne : ss.map String.toList ≠ [] := by
    simpa using hne
  have hmem : ∀ g ∈ ss.map String.toList, ' ' ∉ g := by
    intro g hg
    obtain ⟨s, hsmem, rfl⟩ := List.mem_map.mp hg
    exact hs s hsmem
  have hsplit := splitChar_joinChar ' ' (ss.map String.toList) hmapne hmem
  have htl : (String.mk (joinChar ' ' (ss.map String.toList))).toList
      = joinChar ' ' (ss.map String.toList) := rfl
  rw [goSplitSpace, goJoinSpace, htl, hsplit, List.map_map]
  have : (String.mk ∘ String.toList) = id := by
    funext s
    cases s
    rfl
  simp [this]

/-- Parse a run of decimal digits; `none` when empty or any character is
not a digit. -/
def digitsToNat : List Char → Option Nat
  | [] => none
  | l => l.foldlM (fun acc c =>
      if 48 ≤ c.toNat ∧ c.toNat ≤ 57 then some (acc * 10 + (c.toNat - 48))
      else none) 0

/-- Go `strconv.Atoi`: optional sign then decimal digits; `none` models
the error result (overflow behaviour is not modelled — every number in
this code base is small). -/
def goAtoi (s : String) : Option Int :=
  match s.toList with
  | [] => none
  | c :: rest =>
      if c = '-' then (digitsToNat rest).map fun n => -(n : Int)
      else if c = '+' then (digitsToNat rest).map fun n => (n : Int)
      else (digitsToNat (c :: rest)).map fun n => (n : Int)

/-- Go `strconv.Itoa`. -/
def goItoa (i : Int) : String :=
  if i < 0 then "-" ++ Nat.repr i.natAbs else Nat.repr i.natAbs


/-!
Data model of `csvauth` (`credential.go` + `csvauth.go` + `token.go`).
-/

/-- Outcome of a verification call.  The Go code returns `nil`,
`ErrNotFound`, `ErrUnauthorized`, `ErrUnknownAlgorithm`,
`ErrLockedCredential`, a GCM decryption error, or panics. -/
inductive VerifyOutcome where
  | ok
  | notFound
  | unauthorized
  | unknownAlgorithm
  | locked
  | decryptFailed
  | panics
deriving DecidableEq, Repr

/-- Error tags for `FromFields` (the Go function returns distinct
`fmt.Errorf` values; only their identity matters here).  `panics` marks
an out-of-range parameter index access. -/
inductive FieldsErr where
  | invalidParams
  | badBase64
  | invalidIters
  | invalidSize
  | invalidHash
  | invalidAlgorithm
  | panics
deriving DecidableEq, Repr

/-- One credential record (struct `Credential` in `credential.go`;
`plain` and `hashID` are the unexported transient fields). -/
structure Credential where
  Purpose : String := ""
  Name : String := ""
  plain : String := ""
  Params : List String := []
  Salt : List Nat := []
  Derived : List Nat := []
  Roles : List String := []
  Extra : String := ""
  hashID : String := ""
deriving DecidableEq, Repr

/-- Constant `DefaultPurpose` / `PurposeDefault` (`"login"`). -/
def DefaultPurpose : String := "login"

/-- Modelled from the spec: constant `PurposeToken`; the defining source
file is absent from the snapshot, but the spec reserves the purpose
value for tokens as the string below. -/
def PurposeToken : String := "token"

/-- Modelled from the spec: constant `hashIDSep`, the separator between
a token's label and its fingerprint in the combined credentials-map key;
its defining file is absent from the snapshot and no claim depends on
the concrete separator, only on the combined key differing from plain
login names. -/
def hashIDSep : String := ":"

/-- The cryptographic primitives used by the store.  They live in the Go
standard library / `golang.org/x/crypto`, outside this repository, so
they are opaque parameters here: each theorem assumes only the pointwise
facts it needs (a specific collision-freeness instance, bcrypt
generate/compare consistency, GCM decrypt inverting encrypt). -/
structure CryptoPrims where
  sha256 : String → List Nat
  pbkdf2Key : String → String → List Nat → Int → Int → List Nat
  bcryptGenerate : String → Int → List Nat
  bcryptCompare : List Nat → String → Bool
  gcmEncrypt : List Nat → List Nat → String → List Nat
  gcmDecrypt : List Nat → List Nat → List Nat → Option String
  hmacSha256 : List Nat → List Nat → List Nat

/-- Executable stand-in primitives for witnesses and counterexamples.
`sha256` is the byte encoding of the string (injective, which is the
idealisation of collision resistance); bcrypt and GCM are the identity
transport of the password bytes, which satisfies the generate/compare
and encrypt/decrypt contracts the theorems assume. -/
def testPrims : CryptoPrims where
  sha256 := fun s => goBytes s
  pbkdf2Key := fun _ pw salt _ _ => goBytes pw ++ salt
  bcryptGenerate := fun pw _ => goBytes pw
  bcryptCompare := fun d pw => d = goBytes pw
  gcmEncrypt := fun _ _ pt => goBytes pt
  gcmDecrypt := fun _ _ ct => some (goString ct)
  hmacSha256 := fun key msg => (key ++ msg ++ List.replicate 32 0).take 32

/-- Association-list model of a Go map: lookup of the most recent
insertion. -/
def mapFind (m : List (String × Credential)) (k : String) :
    Option Credential :=
  match m with
  | [] => none
  | (k2, v) :: rest => if k2 = k then some v else mapFind rest k

/-- Go map insertion (later entries shadow earlier ones in `mapFind`). -/
def mapInsert (k : String) (v : Credential)
    (m : List (String × Credential)) : List (String × Credential) :=
  (k, v) :: m

/-- The store (struct `Auth` in `csvauth.go`): the adjusted 16-byte
master key and the three credential indices.  The mutex is omitted
(single-threaded model). -/
structure Auth where
  aes128key : List Nat
  credentials : List (String × Credential) := []
  tokens : List (String × Credential) := []
  serviceAccounts : List (String × Credential) := []
  BasicAuthTokenNames : List String := []
deriving DecidableEq, Repr

/-- Function `New`: copy the given key bytes into a zeroed 16-byte
array (truncating or zero-padding) and start with empty indices and the
default basic-auth token-carrier names. -/
def New (aes128key : List Nat) : Auth where
  aes128key := goCopyFixed 16 aes128key
  credentials := []
  tokens := []
  serviceAccounts := []
  BasicAuthTokenNames := ["", "api", "apikey"]

/-!
Operations of `credential.go` (parsing / serialisation) and the
verification engine.
-/

/-- Function `FromFields` (`credential.go`): build a `Credential` from
the seven record columns.  Returns the partially built credential plus
an optional error, exactly as the Go function returns
`(credential, err)`. -/
def FromFields (P : CryptoPrims)
    (purpose name paramList saltBase64 derived roleList extra : String) :
    Credential × Option FieldsErr :=
  let purpose2 := if purpose = "" then DefaultPurpose else purpose
  let roles : List String :=
    if roleList = "" then [] else goSplitSpace (goReplaceCommaSpace roleList)
  let params := goSplitSpace (goReplaceCommaSpace paramList)
  let base : Credential :=
    { Purpose := purpose2, Name := name, Params := params, Roles := roles,
      Extra := extra }
  match params with
  | [] => (base, some .invalidAlgorithm)
  | algo :: restP =>
    if algo = "aes-128-gcm" then
      if restP ≠ [] then (base, some .invalidParams)
      else
        match b64decode saltBase64 with
        | none => (base, some .badBase64)
        | some salt =>
            match b64decode derived with
            | none => ({ base with Salt := salt }, some .badBase64)
            | some dbytes =>
                ({ base with Salt := salt, Derived := dbytes }, none)
    else if algo = "plain" then
      if restP ≠ [] then (base, some .invalidParams)
      else ({ base with plain := derived, Derived := P.sha256 derived }, none)
    else if algo = "pbkdf2" then
      let salt := (b64decode saltBase64).getD []
      let dbytes := (b64decode derived).getD []
      let cred := { base with Salt := salt, Derived := dbytes }
      match restP with
      | [] => (cred, some .panics)
      | p1 :: rest1 =>
          match goAtoi p1 with
          | none => (cred, some .invalidIters)
          | some iters =>
              if iters ≤ 0 then (cred, some .invalidIters)
              else
                match rest1 with
                | [] => (cred, some .panics)
                | p2 :: rest2 =>
                    match goAtoi p2 with
                    | none => (cred, some .invalidSize)
                    | some size =>
                        if size < 8 ∨ 32 < size then (cred, some .invalidSize)
                        else
                          match rest2 with
                          | [] => (cred, some .panics)
                          | p3 :: _ =>
                              if p3 = "SHA-256" ∨ p3 = "SHA-1" then (cred, none)
                              else (cred, some .invalidHash)
    else if algo = "bcrypt" then
      if restP ≠ [] then (base, some .invalidParams)
      else ({ base with Derived := goBytes derived }, none)
    else (base, some .invalidAlgorithm)

/-- Function `FromRecord` (`credential.go`): destructure a record of at
least five columns; `none` models the index-out-of-range panic on a
shorter record (`LoadCSV` guards against it). -/
def FromRecord (P : CryptoPrims) (record : List String) :
    Option (Credential × Option FieldsErr) :=
  match record with
  | purpose :: name :: paramList :: salt64 :: derived :: rest =>
      some (FromFields P purpose name paramList salt64 derived
        (rest.getD 0 "") (rest.getD 1 ""))
  | _ => none

/-- Method `Credential.ToRecord` (`credential.go`); `none` models the
panic on an unknown or absent algorithm tag. -/
def Credential.ToRecord (c : Credential) : Option (List String) :=
  let paramList := goJoinSpace c.Params
  let purpose := if c.Purpose = "" then DefaultPurpose else c.Purpose
  let mk := fun (salt derived : String) =>
    [purpose, c.Name, paramList, salt, derived, goJoinSpace c.Roles, c.Extra]
  match c.Params with
  | [] => none
  | algo :: _ =>
    if algo = "aes-128-gcm" then
      some (mk (b64encode c.Salt) (b64encode c.Derived))
    else if algo = "plain" then
      some (mk "" c.plain)
    else if algo = "pbkdf2" then
      some (mk (b64encode c.Salt) (b64encode c.Derived))
    else if algo = "bcrypt" then
      some (mk "" (goString c.Derived))
    else none

/-- Method `Credential.Verify` (`csvauth.go` lines 793-839): dispatch on
the stored algorithm tag, derive a comparable digest from the candidate
secret, and compare with `bytes.Equal`.  An `aes-128-gcm` credential
with an unpopulated plaintext cache is `locked`; an unknown algorithm
tag yields `unknownAlgorithm`; a `pbkdf2` credential with missing
parameters or an unsupported hash name panics. -/
def Credential.Verify (P : CryptoPrims) (c : Credential)
    (secret : String) : VerifyOutcome :=
  match c.Params with
  | [] => .panics
  | algo :: rest =>
    if algo = "aes-128-gcm" then
      if c.plain = "" then .locked
      else if P.sha256 c.plain = P.sha256 secret then .ok else .unauthorized
    else if algo = "plain" then
      if c.Derived = P.sha256 secret then .ok else .unauthorized
    else if algo = "pbkdf2" then
      match rest with
      | p1 :: p2 :: p3 :: _ =>
          let iters := (goAtoi p1).getD 0
          let size := (goAtoi p2).getD 0
          if p3 = "SHA-1" ∨ p3 = "SHA-256" then
            if c.Derived = P.pbkdf2Key p3 secret c.Salt iters size then .ok
            else .unauthorized
          else .panics
      | _ => .panics
    else if algo = "bcrypt" then
      if P.bcryptCompare c.Derived secret then .ok else .unauthorized
    else .unknownAlgorithm

/-!
Timing-cost instrumentation of the digest comparisons.  Go's
`bytes.Equal` (used by `Credential.Verify`) is a short-circuiting
memory comparison: it first compares lengths and then examines bytes
only up to the first mismatch.  `crypto/subtle.ConstantTimeCompare`
(used by `envauth`) examines every byte when the lengths agree (and
returns 0 immediately when they differ).  The cost functions count the
byte comparisons each primitive performs.
-/

/-- Byte comparisons performed by a short-circuiting byte-wise equality
scan (the behavioural model of `bytes.Equal` after its length check). -/
def bytesEqualLoop : List Nat → List Nat → Nat
  | x :: xs, y :: ys => 1 + (if x = y then bytesEqualLoop xs ys else 0)
  | _, _ => 0

/-- Byte comparisons performed by `bytes.Equal`. -/
def bytesEqualCost (a b : List Nat) : Nat :=
  if a.length = b.length then bytesEqualLoop a b else 0

/-- Byte comparisons performed by `subtle.ConstantTimeCompare`. -/
def ctCompareCost (a b : List Nat) : Nat :=
  if a.length = b.length then a.length else 0

/-- Method `Credential.Verify` instrumented with the number of byte
comparisons its final `bytes.Equal` call performs (0 on the paths that
return before reaching it: locked, unknown algorithm, panic, and the
bcrypt branch, which delegates to bcrypt's own comparison). -/
def Credential.VerifyCost (P : CryptoPrims) (c : Credential)
    (secret : String) : VerifyOutcome × Nat :=
  match c.Params with
  | [] => (.panics, 0)
  | algo :: rest =>
    if algo = "aes-128-gcm" then
      if c.plain = "" then (.locked, 0)
      else
        ((if P.sha256 c.plain = P.sha256 secret then .ok else .unauthorized),
          bytesEqualCost (P.sha256 c.plain) (P.sha256 secret))
    else if algo = "plain" then
      ((if c.Derived = P.sha256 secret then .ok else .unauthorized),
        bytesEqualCost c.Derived (P.sha256 secret))
    else if algo = "pbkdf2" then
      match rest with
      | p1 :: p2 :: p3 :: _ =>
          let iters := (goAtoi p1).getD 0
          let size := (goAtoi p2).getD 0
          if p3 = "SHA-1" ∨ p3 = "SHA-256" then
            ((if c.Derived = P.pbkdf2Key p3 secret c.Salt iters size then .ok
              else .unauthorized),
              bytesEqualCost c.Derived (P.pbkdf2Key p3 secret c.Salt iters size))
          else (.panics, 0)
      | _ => (.panics, 0)
    else if algo = "bcrypt" then
      ((if P.bcryptCompare c.Derived secret then .ok else .unauthorized), 0)
    else (.unknownAlgorithm, 0)

theorem VerifyCost_fst (P : CryptoPrims) (c : Credential) (secret : String) :
    (c.VerifyCost P secret).1 = c.Verify P secret := by
  unfold Credential.VerifyCost Credential.Verify
  match c.Params with
  | [] => rfl
  | algo :: rest =>
      by_cases h1 : algo = "aes-128-gcm"
      · by_cases hp : c.plain = "" <;> simp [h1, hp]
      · by_cases h2 : algo = "plain"
        · simp [h1, h2]
        · by_cases h3 : algo = "pbkdf2"
          · simp only [if_neg h1, if_neg h2, if_pos h3]
            rcases rest with _ | ⟨p1, _ | ⟨p2, _ | ⟨p3, r3⟩⟩⟩
            · rfl
            · rfl
            · rfl
            · by_cases h5 : p3 = "SHA-1" ∨ p3 = "SHA-256" <;> simp [h5]
          · by_cases h4 : algo = "bcrypt"
            · simp [h1, h2, h3, h4]
            · simp [h1, h2, h3, h4]

/-!
Store operations (`csvauth.go`, `token.go`, `service_account.go`).
-/

/-- Method `Auth.tokenCacheID` (`token.go`): the keyed token
fingerprint — the first 6 raw bytes of HMAC-SHA-256 of the secret under
the store's master key, base64url-encoded for use as a map key.  It is
a function of the master key and the secret value only. -/
def Auth.tokenCacheID (P : CryptoPrims) (a : Auth) (secret : String) :
    String :=
  b64encode ((P.hmacSha256 a.aes128key (goBytes secret)).take 6)

/-- Result of `Auth.maybeDecryptCredential`. -/
inductive DecryptResult where
  | ok (plain : String)
  | err
  | panics
deriving DecidableEq, Repr

/-- Method `Auth.maybeDecryptCredential`: for `aes-128-gcm` attempt GCM
decryption of the stored ciphertext under the master key and the stored
nonce; for any other algorithm return the cached plaintext unchanged.
Accessing the algorithm tag of an empty parameter list panics. -/
def Auth.maybeDecrypt (P : CryptoPrims) (a : Auth) (c : Credential) :
    DecryptResult :=
  match c.Params with
  | [] => .panics
  | algo :: _ =>
    if algo = "aes-128-gcm" then
      match P.gcmDecrypt a.aes128key (goCopyFixed 12 c.Salt) c.Derived with
      | some plain => .ok plain
      | none => .err
    else .ok c.plain

/-- Method `Auth.LoadToken` / `Auth.VerifyToken` (`token.go`): look the
fingerprint up in the token index; populate the plaintext cache if
empty (propagating a decryption failure); then delegate to the
credential's algorithm-specific verify with the secret as candidate. -/
def Auth.VerifyToken (P : CryptoPrims) (a : Auth) (secret : String) :
    VerifyOutcome :=
  match mapFind a.tokens (a.tokenCacheID P secret) with
  | none => .notFound
  | some c =>
    if c.plain = "" then
      match a.maybeDecrypt P c with
      | .panics => .panics
      | .err => .decryptFailed
      | .ok plain => Credential.Verify P { c with plain := plain } secret
    else Credential.Verify P c secret

/-- Method `Auth.Verify` (`csvauth.go` lines 772-789): (1) a hit in the
credentials index delegates to that credential's verify; (2) otherwise,
an empty secret swaps the two fields; (3) the (possibly swapped) name
is then retried as a bearer token when it is one of
`BasicAuthTokenNames`, and rejected as not-found otherwise. -/
def Auth.Verify (P : CryptoPrims) (a : Auth) (name secret : String) :
    VerifyOutcome :=
  match mapFind a.credentials name with
  | some c => Credential.Verify P c secret
  | none =>
    let secret2 := if secret = "" then name else secret
    let name2 := if secret = "" then secret else name
    if name2 ∈ a.BasicAuthTokenNames then a.VerifyToken P secret2
    else .notFound

/-- Method `Auth.CacheCredential` (token-aware version): tokens are
keyed in the credentials index under label + separator + fingerprint
and additionally inserted into the token index. -/
def Auth.CacheCredential (a : Auth) (c : Credential) : Auth :=
  let name := if c.Purpose = PurposeToken then c.Name ++ hashIDSep ++ c.hashID
    else c.Name
  let a2 := { a with credentials := mapInsert name c a.credentials }
  if c.Purpose = PurposeToken then
    { a2 with tokens := mapInsert c.hashID c a2.tokens }
  else a2

/-- Method `Auth.CacheServiceAccount`. -/
def Auth.CacheServiceAccount (a : Auth) (c : Credential) : Auth :=
  { a with serviceAccounts := mapInsert c.Purpose c a.serviceAccounts }

/-- Method `Auth.NewCredential` (`csvauth.go` lines 577-709): derive
the stored representation of `secret` for the requested algorithm.
`none` models `os.Exit(1)` on invalid parameters (and the panic on an
empty parameter list).  The random nonce (aes) and salt (pbkdf2) drawn
from `crypto/rand` are passed in explicitly as `nonce` and `salt`. -/
def Auth.NewCredential (P : CryptoPrims) (a : Auth)
    (purpose name secret : String) (params roles : List String)
    (extra : String) (nonce salt : List Nat) : Option Credential :=
  let hid := if purpose = PurposeToken then a.tokenCacheID P secret else ""
  let base : Credential :=
    { Purpose := purpose, Name := name, Params := params, Roles := roles,
      Extra := extra, hashID := hid }
  match params with
  | [] => none
  | algo :: _ =>
    if algo = "plain" then
      if params.length ≠ 1 then none
      else some { base with plain := secret, Params := ["plain"],
                            Derived := P.sha256 secret }
    else if algo = "aes-128-gcm" then
      if params.length ≠ 1 then none
      else some { base with plain := secret, Params := ["aes-128-gcm"],
                            Salt := nonce,
                            Derived := P.gcmEncrypt a.aes128key (goCopyFixed 12 nonce) secret }
    else if algo = "pbkdf2" then
      if 4 < params.length then none
      else
        let itersQ : Option Int :=
          if 1 < params.length then
            match goAtoi (params.getD 1 "") with
            | some i => if i ≤ 0 then none else some i
            | none => none
          else some 1000
        let sizeQ : Option Int :=
          if 2 < params.length then
            match goAtoi (params.getD 2 "") with
            | some s => if s < 8 ∨ 32 < s then none else some s
            | none => none
          else some 16
        let hashQ : Option String :=
          if 3 < params.length then
            if params.getD 3 "" = "SHA-256" ∨ params.getD 3 "" = "SHA-1" then
              some (params.getD 3 "")
            else none
          else some "SHA-256"
        match itersQ, sizeQ, hashQ with
        | some iters, some size, some hashName =>
            some { base with
                     Params := ["pbkdf2", goItoa iters, goItoa size, hashName],
                     Salt := salt,
                     Derived := P.pbkdf2Key hashName secret salt iters size }
        | _, _, _ => none
    else if algo = "bcrypt" then
      if 2 < params.length then none
      else
        let costQ : Option Int :=
          if 1 < params.length then
            match goAtoi (params.getD 1 "") with
            | some k => if k < 4 ∨ 31 < k then none else some k
            | none => none
          else some 12
        match costQ with
        | some cost =>
            some { base with Params := ["bcrypt"],
                             Derived := P.bcryptGenerate secret cost }
        | none => none
    else none

/-- Load errors of `Auth.LoadCSV`. -/
inductive LoadErr where
  | shortRecord
  | fieldsErr (e : FieldsErr)
deriving DecidableEq, Repr

/-- The record-processing loop of `Auth.LoadCSV` (`csvauth.go` lines
514-574), modelled over the list of already CSV-parsed records (the
`encoding/csv` reader and the unconditional header-row strip are
outside the model).  Empty records and one-column-empty records are
skipped; a record with fewer than five columns aborts the load with an
error; a `FromRecord` error aborts the load with that error; otherwise
the credential is inserted into the index chosen by its purpose
(tokens also into the token index), and loading continues. -/
def Auth.loadRecords (P : CryptoPrims) (a : Auth) :
    List (List String) → Auth × Option LoadErr
  | [] => (a, none)
  | record :: rest =>
    if record = [] then a.loadRecords P rest
    else if record = [""] then a.loadRecords P rest
    else if record.length < 5 then (a, some .shortRecord)
    else
      match FromRecord P record with
      | none => (a, some .shortRecord)
      | some (_, some e) => (a, some (.fieldsErr e))
      | some (c, none) =>
        if c.Purpose = "" ∨ c.Purpose = DefaultPurpose ∨
            c.Purpose = PurposeToken then
          let name := if c.Purpose = PurposeToken
            then c.Name ++ hashIDSep ++ c.hashID else c.Name
          let a2 := { a with credentials := mapInsert name c a.credentials }
          let a3 := if c.Purpose = PurposeToken
            then { a2 with tokens := mapInsert c.hashID c a2.tokens } else a2
          a3.loadRecords P rest
        else
          { a with serviceAccounts :=
              mapInsert c.Purpose c a.serviceAccounts }.loadRecords P rest

/-!
Model of `envauth` (`envauth.go`): the constant-time primitives from
`crypto/subtle` and `BasicCredentials.Verify`.
-/

/-- Accumulated OR of byte XORs, the loop inside
`subtle.ConstantTimeCompare`. -/
def ctFold (a b : List Nat) : Nat :=
  (List.zip a b).foldl (fun acc p => acc ||| (p.1 ^^^ p.2)) 0

/-- Go `subtle.ConstantTimeCompare`: 0 immediately on a length
mismatch, otherwise 1 exactly when the accumulated XOR of all byte
pairs is zero. -/
def ctCompare (a b : List Nat) : Nat :=
  if a.length = b.length then (if ctFold a b = 0 then 1 else 0) else 0

/-- Go `subtle.ConstantTimeSelect(v, x, y)` for `v` in 0 or 1: `x` when
`v = 1`, else `y`, computed branch-free (the Go source uses signed
masking; the arithmetic form below agrees with it on 0/1 selectors). -/
def ctSelect (v x y : Nat) : Nat :=
  v * x + (1 - v) * y

/-- Struct `BasicCredentials` (`envauth.go`). -/
structure BasicCredentials where
  Username : String
  Password : String
deriving DecidableEq, Repr

/-- Method `BasicCredentials.Verify` (`envauth.go`): reject an empty
password up front; otherwise hash all four strings with SHA-256 and
combine the two digest comparisons with constant-time select, never
short-circuiting. -/
def BasicCredentials.Verify (P : CryptoPrims) (c : BasicCredentials)
    (username password : String) : VerifyOutcome :=
  if password = "" then .unauthorized
  else
    let equal0 := 1
    let v1 := ctCompare (P.sha256 c.Username) (P.sha256 username)
    let equal1 := ctSelect v1 equal0 0
    let v2 := ctCompare (P.sha256 c.Password) (P.sha256 password)
    let equal2 := ctSelect v2 equal1 0
    if equal2 = 1 then .ok else .unauthorized

theorem natOr_eq_zero_iff (x y : Nat) : x ||| y = 0 ↔ x = 0 ∧ y = 0 := by
  constructor
  · intro h
    have hx : x = 0 := by
      apply Nat.eq_of_testBit_eq
      intro i
      have h2 := congrArg (fun n => n.testBit i) h
      simp [Nat.testBit_lor] at h2
      simp [h2.1]
    have hy : y = 0 := by
      apply Nat.eq_of_testBit_eq
      intro i
      have h2 := congrArg (fun n => n.testBit i) h
      simp [Nat.testBit_lor] at h2
      simp [h2.2]
    exact ⟨hx, hy⟩
  · rintro ⟨rfl, rfl⟩
    rfl

theorem ctFold_aux (l : List (Nat × Nat)) (acc : Nat) :
    (l.foldl (fun acc2 p => acc2 ||| (p.1 ^^^ p.2)) acc = 0) ↔
      (acc = 0 ∧ ∀ p ∈ l, p.1 = p.2) := by
  induction l generalizing acc with
  | nil => simp
  | cons p l ih =>
      simp only [List.foldl_cons, ih, natOr_eq_zero_iff, Nat.xor_eq_zero,
        List.mem_cons]
      constructor
      · rintro ⟨⟨h1, h2⟩, h3⟩
        exact ⟨h1, fun q hq => hq.elim (fun he => he ▸ h2) (h3 q)⟩
      · rintro ⟨h1, h2⟩
        exact ⟨⟨h1, h2 p (Or.inl rfl)⟩, fun q hq => h2 q (Or.inr hq)⟩

theorem zip_forall_eq {a b : List Nat} (hlen : a.length = b.length)
    (h : ∀ p ∈ List.zip a b, p.1 = p.2) : a = b := by
  induction a generalizing b with
  | nil => cases b <;> simp_all
  | cons x xs ih =>
      cases b with
      | nil => simp at hlen
      | cons y ys =>
          have hx : x = y := h (x, y) (by simp)
          have hrest : xs = ys := by
            apply ih (by simpa using hlen)
            intro p hp
            exact h p (by simp [hp])
          rw [hx, hrest]

theorem mem_zip_self {a : List Nat} {p : Nat × Nat}
    (hp : p ∈ List.zip a a) : p.1 = p.2 := by
  induction a with
  | nil => simp at hp
  | cons x xs ih =>
      rcases List.mem_cons.mp hp with h | h
      · rw [h]
      · exact ih h

theorem ctCompare_eq_one_iff (a b : List Nat) : ctCompare a b = 1 ↔ a = b := by
  unfold ctCompare ctFold
  by_cases hlen : a.length = b.length
  · simp only [if_pos hlen]
    by_cases hz :
        List.foldl (fun acc2 p => acc2 ||| (p.1 ^^^ p.2)) 0 (List.zip a b) = 0
    · simp only [if_pos hz]
      have h2 := (ctFold_aux (List.zip a b) 0).mp hz
      simp [zip_forall_eq hlen h2.2]
    · simp only [if_neg hz]
      constructor
      · intro h
        exact absurd h (by norm_num)
      · rintro rfl
        exact absurd ((ctFold_aux (List.zip a a) 0).mpr
          ⟨rfl, fun p hp => mem_zip_self hp⟩) hz
  · simp only [if_neg hlen]
    constructor
    · intro h
      exact absurd h (by norm_num)
    · rintro rfl
      exact absurd rfl hlen

theorem mem_joinChar {sep : Char} {x : Char} :
    ∀ {gs : List (List Char)}, x ∈ joinChar sep gs →
      x = sep ∨ ∃ g ∈ gs, x ∈ g
  | [], h => by simp [joinChar] at h
  | [g], h => by
      right
      exact ⟨g, by simp, by simpa [joinChar] using h⟩
  | g :: g2 :: gs, h => by
      rw [show joinChar sep (g :: g2 :: gs)
            = g ++ sep :: joinChar sep (g2 :: gs) from rfl] at h
      rcases List.mem_append.mp h with h1 | h1
      · exact Or.inr ⟨g, by simp, h1⟩
      · rcases List.mem_cons.mp h1 with h2 | h2
        · exact Or.inl h2
        · rcases mem_joinChar h2 with h3 | ⟨g3, hg3, hx3⟩
          · exact Or.inl h3
          · exact Or.inr ⟨g3, by simp [List.mem_cons.mp hg3], hx3⟩

theorem goJoinSpace_split (ss : List String) (hne : ss ≠ [])
    (hp : ∀ s ∈ ss, plainField s) :
    goSplitSpace (goReplaceCommaSpace (goJoinSpace ss)) = ss := by
  have hnocomma : ',' ∉ (goJoinSpace ss).toList := by
    intro hmem
    have hmem2 : ',' ∈ joinChar ' ' (ss.map String.toList) := hmem
    rcases mem_joinChar hmem2 with h | ⟨g, hg, hx⟩
    · exact absurd h (by decide)
    · obtain ⟨s, hs, rfl⟩ := List.mem_map.mp hg
      exact (hp s hs).2 hx
  rw [goReplaceCommaSpace_id _ hnocomma]
  exact goSplitSpace_goJoinSpace ss hne (fun s hs => (hp s hs).1)

theorem string_ne_empty_iff (s : String) : s ≠ "" ↔ s.toList ≠ [] := by
  constructor
  · intro h h2
    apply h
    cases s with
    | mk data =>
        cases data with
        | nil => rfl
        | cons c cs => simp [String.toList] at h2
  · intro h h2
    subst h2
    exact h rfl

theorem goJoinSpace_ne_empty (r : String) (rs : List String) (hr : r ≠ "") :
    goJoinSpace (r :: rs) ≠ "" := by
  rw [string_ne_empty_iff]
  intro h
  have h2 : joinChar ' ' ((r :: rs).map String.toList) = [] := h
  cases rs with
  | nil =>
      simp only [List.map] at h2
      rw [show joinChar ' ' [r.toList] = r.toList from rfl] at h2
      exact (string_ne_empty_iff r).mp hr h2
  | cons r2 rs2 =>
      rw [show ((r :: r2 :: rs2).map String.toList)
            = r.toList :: (r2 :: rs2).map String.toList from rfl] at h2
      rw [show joinChar ' ' (r.toList :: (r2 :: rs2).map String.toList)
            = r.toList ++ ' ' :: joinChar ' ' ((r2 :: rs2).map String.toList)
          from rfl] at h2
      simp at h2

/-- Well-formedness of a credential for the serialisation round trip:
a non-empty purpose, space- and comma-free non-empty parameter and role
strings, in-range bytes, and an algorithm-consistent parameter shape
(`ToRecord` panics outside these shapes, and `FromFields` validates the
pbkdf2 parameters). -/
def wellFormed (P : CryptoPrims) (c : Credential) : Bool :=
  (c.Purpose ≠ "" : Bool) &&
  c.Params.all (fun p => decide (plainField p) && (p ≠ "" : Bool)) &&
  c.Roles.all (fun r => decide (plainField r) && (r ≠ "" : Bool)) &&
  c.Salt.all (fun b => b < 256) &&
  c.Derived.all (fun b => b < 256) &&
  (match c.Params with
    | ["plain"] =>
        decide (c.Derived = P.sha256 c.plain) && decide (c.Salt = [])
    | ["aes-128-gcm"] => true
    | ["pbkdf2", p1, p2, p3] =>
        (match goAtoi p1 with
          | some i => decide (0 < i)
          | none => false) &&
        (match goAtoi p2 with
          | some s => decide (8 ≤ s ∧ s ≤ 32)
          | none => false) &&
        (p3 = "SHA-256" || p3 = "SHA-1")
    | ["bcrypt"] => decide (c.Salt = [])
    | _ => false)

/-!
Claim theorems.
-/

/-- C5: an `aes-128-gcm` credential whose plaintext cache was never
populated reports the distinct Locked condition on any candidate
secret — not Unauthorized and not success. -/
theorem c5_locked_credential (P : CryptoPrims) (c : Credential)
    (secret : String) (rest : List String)
    (halg : c.Params = "aes-128-gcm" :: rest) (hplain : c.plain = "") :
    c.Verify P secret = .locked ∧
    VerifyOutcome.locked ≠ VerifyOutcome.unauthorized ∧
    VerifyOutcome.locked ≠ VerifyOutcome.ok := by
  refine ⟨?_, by decide, by decide⟩
  unfold Credential.Verify
  rw [halg]
  simp [hplain]

theorem c5_locked_credential_witness :
    Credential.Verify testPrims
      { Purpose := "login", Name := "svc", Params := ["aes-128-gcm"],
        Salt := List.replicate 12 0, Derived := [1, 2, 3] } "guess"
        = .locked ∧
    VerifyOutcome.locked ≠ VerifyOutcome.unauthorized ∧
    VerifyOutcome.locked ≠ VerifyOutcome.ok :=
  c5_locked_credential testPrims
    { Purpose := "login", Name := "svc", Params := ["aes-128-gcm"],
      Salt := List.replicate 12 0, Derived := [1, 2, 3] } "guess" [] rfl rfl

/-- C10: the store's effective key is the input truncated to its first
16 bytes when long enough and zero-padded to 16 bytes otherwise; `New`
performs no validation, and token fingerprinting, encryption
(`NewCredential` for `aes-128-gcm`), and decryption (`maybeDecrypt`)
all read exactly this adjusted key. -/
theorem c10_key_adjustment (key : List Nat) :
    (New key).aes128key = goCopyFixed 16 key ∧
    (16 ≤ key.length → (New key).aes128key = key.take 16) ∧
    (key.length < 16 →
      (New key).aes128key = key ++ List.replicate (16 - key.length) 0) ∧
    (New key).aes128key.length = 16 ∧
    (∀ P s, Auth.tokenCacheID P (New key) s =
      b64encode ((P.hmacSha256 (goCopyFixed 16 key) (goBytes s)).take 6)) ∧
    (∀ (P : CryptoPrims) (name secret : String) roles extra nonce,
      ∃ c, Auth.NewCredential P (New key) "login" name secret
          ["aes-128-gcm"] roles extra nonce [] = some c ∧
        c.Derived = P.gcmEncrypt (goCopyFixed 16 key)
          (goCopyFixed 12 nonce) secret) ∧
    (∀ (P : CryptoPrims) (c : Credential) rest,
      c.Params = "aes-128-gcm" :: rest →
      Auth.maybeDecrypt P (New key) c =
        match P.gcmDecrypt (goCopyFixed 16 key) (goCopyFixed 12 c.Salt)
            c.Derived with
        | some plain => .ok plain
        | none => .err) := by
  refine ⟨rfl, fun h => goCopyFixed_of_le 16 key h,
    fun h => goCopyFixed_of_lt 16 key h, goCopyFixed_length 16 key,
    fun P s => rfl, fun P name secret roles extra nonce => ⟨_, rfl, rfl⟩,
    ?_⟩
  intro P c rest halg
  unfold Auth.maybeDecrypt
  rw [halg]
  simp [New]

theorem c10_key_adjustment_witness :
    (New [1, 2, 3]).aes128key
        = [1, 2, 3] ++ List.replicate (16 - [1, 2, 3].length) 0 ∧
    (New (List.replicate 20 7)).aes128key = (List.replicate 20 7).take 16 :=
  ⟨(c10_key_adjustment [1, 2, 3]).2.2.1 (by decide),
    (c10_key_adjustment (List.replicate 20 7)).2.1 (by decide)⟩

/-- C3 counterexample: the empty candidate secret is not always
rejected — a `plain` credential created from the empty secret verifies
the empty candidate successfully (`Credential.Verify` has no early
empty-candidate rejection; the digest of the empty candidate equals the
stored digest). -/
theorem c3_counterexample :
    ∃ c, Auth.NewCredential testPrims (New []) "login" "u" "" ["plain"]
        [] "" [] [] = some c ∧
      Credential.Verify testPrims c "" = .ok ∧
      VerifyOutcome.ok ≠ VerifyOutcome.unauthorized :=
  ⟨_, rfl, rfl, by decide⟩

/-- C3 amended: the empty candidate never verifies against a credential
whose stored comparable value differs from the empty secret's (which is
the case whenever the stored secret is non-empty, under
collision-freeness); an undecrypted `aes-128-gcm` credential reports
Locked rather than Unauthorized; there is no rejection before the
comparison in `csvauth`, while `envauth` does reject an empty password
before comparing. -/
theorem c3_empty_candidate (P : CryptoPrims) (c : Credential) :
    (∀ rest, c.Params = "plain" :: rest → c.Derived ≠ P.sha256 "" →
      c.Verify P "" = .unauthorized) ∧
    (∀ rest, c.Params = "aes-128-gcm" :: rest → c.plain = "" →
      c.Verify P "" = .locked) ∧
    (∀ rest, c.Params = "aes-128-gcm" :: rest → c.plain ≠ "" →
      P.sha256 c.plain ≠ P.sha256 "" → c.Verify P "" = .unauthorized) ∧
    (∀ p1 p2 p3 rest, c.Params = "pbkdf2" :: p1 :: p2 :: p3 :: rest →
      (p3 = "SHA-1" ∨ p3 = "SHA-256") →
      c.Derived ≠ P.pbkdf2Key p3 "" c.Salt ((goAtoi p1).getD 0)
        ((goAtoi p2).getD 0) →
      c.Verify P "" = .unauthorized) ∧
    (∀ rest, c.Params = "bcrypt" :: rest →
      P.bcryptCompare c.Derived "" = false →
      c.Verify P "" = .unauthorized) ∧
    (∀ bc : BasicCredentials, ∀ u, BasicCredentials.Verify P bc u ""
        = .unauthorized) := by
  refine ⟨?_, ?_, ?_, ?_, ?_, ?_⟩
  · intro rest halg hne
    unfold Credential.Verify
    rw [halg]
    simp [hne]
  · intro rest halg hplain
    unfold Credential.Verify
    rw [halg]
    simp [hplain]
  · intro rest halg hplain hne
    unfold Credential.Verify
    rw [halg]
    simp [hplain, hne]
  · intro p1 p2 p3 rest halg hhash hne
    unfold Credential.Verify
    rw [halg]
    rcases hhash with h | h <;> subst h <;> simp [hne]
  · intro rest halg hcmp
    unfold Credential.Verify
    rw [halg]
    simp [hcmp]
  · intro bc u
    unfold BasicCredentials.Verify
    simp

theorem c3_empty_candidate_witness :
    Credential.Verify testPrims
      { Purpose := "login", Name := "al", plain := "hunter2",
        Params := ["plain"], Derived := testPrims.sha256 "hunter2" } ""
        = .unauthorized ∧
    BasicCredentials.Verify testPrims
      { Username := "u", Password := "p" } "u" "" = .unauthorized := by
  constructor
  · exact (c3_empty_candidate testPrims
      { Purpose := "login", Name := "al", plain := "hunter2",
        Params := ["plain"], Derived := testPrims.sha256 "hunter2" }).1
      [] rfl (by decide)
  · exact (c3_empty_candidate testPrims
      { Purpose := "login", Name := "al" }).2.2.2.2.2
      { Username := "u", Password := "p" } "u"

/-- C6 counterexample: a stored `pbkdf2` credential whose hash name is
the unsupported `"MD5"` makes `Credential.Verify` panic (the inner hash
switch has a panicking default), rather than returning the distinct
UnknownAlgorithm error the claim promises — and a panic is a crash. -/
theorem c6_counterexample :
    Credential.Verify testPrims
      { Purpose := "login", Name := "mal",
        Params := ["pbkdf2", "1000", "16", "MD5"], Salt := [1, 2],
        Derived := [3, 4] } "pw" = .panics ∧
    VerifyOutcome.panics ≠ VerifyOutcome.unknownAlgorithm := by
  constructor
  · rfl
  · decide

/-- C6 amended: `Credential.Verify` returns UnknownAlgorithm exactly
for an unrecognised algorithm tag; a `pbkdf2` credential carrying an
unsupported hash name panics instead, and `FromFields` rejects such a
record at load time with the invalid-hash error (so the load aborts
rather than storing it). -/
theorem c6_unknown_algorithm (P : CryptoPrims) (c : Credential)
    (secret : String) :
    (∀ algo rest, c.Params = algo :: rest →
      algo ∉ (["plain", "aes-128-gcm", "pbkdf2", "bcrypt"] : List String) →
      c.Verify P secret = .unknownAlgorithm) ∧
    (∀ p1 p2 p3 rest, c.Params = "pbkdf2" :: p1 :: p2 :: p3 :: rest →
      ¬(p3 = "SHA-1" ∨ p3 = "SHA-256") → c.Verify P secret = .panics) ∧
    (∀ purpose name s64 d64 roles extra,
      (FromFields P purpose name "pbkdf2 1000 16 MD5" s64 d64 roles
        extra).2 = some .invalidHash) := by
  refine ⟨?_, ?_, ?_⟩
  · intro algo rest halg hmem
    unfold Credential.Verify
    rw [halg]
    simp only [List.mem_cons, List.mem_singleton] at hmem
    push_neg at hmem
    obtain ⟨h1, h2, h3, h4, _⟩ := hmem
    simp [h1, h2, h3, h4]
  · intro p1 p2 p3 rest halg hhash
    unfold Credential.Verify
    rw [halg]
    have h1 : ¬("pbkdf2" = "aes-128-gcm") := by decide
    have h2 : ¬("pbkdf2" = "plain") := by decide
    simp [h1, h2, hhash]
  · intro purpose name s64 d64 roles extra
    have hsplit : goSplitSpace (goReplaceCommaSpace "pbkdf2 1000 16 MD5")
        = ["pbkdf2", "1000", "16", "MD5"] := by decide
    unfold FromFields
    rw [hsplit]
    have hi : goAtoi "1000" = some 1000 := by decide
    have hs : goAtoi "16" = some 16 := by decide
    simp [hi, hs]

theorem c6_unknown_algorithm_witness :
    Credential.Verify testPrims
      { Purpose := "login", Name := "odd", Params := ["scrypt"],
        Derived := [1] } "pw" = .unknownAlgorithm ∧
    Credential.Verify testPrims
      { Purpose := "login", Name := "mal2",
        Params := ["pbkdf2", "1000", "16", "MD5"], Derived := [1] } "pw"
        = .panics ∧
    (FromFields testPrims "login" "mal3" "pbkdf2 1000 16 MD5" "AAAA"
      "AAAA" "" "").2 = some .invalidHash := by
  refine ⟨?_, ?_, ?_⟩
  · exact (c6_unknown_algorithm testPrims
      { Purpose := "login", Name := "odd", Params := ["scrypt"],
        Derived := [1] } "pw").1 "scrypt" [] rfl (by decide)
  · exact (c6_unknown_algorithm testPrims
      { Purpose := "login", Name := "mal2",
        Params := ["pbkdf2", "1000", "16", "MD5"], Derived := [1] }
      "pw").2.1 "1000" "16" "MD5" [] rfl (by decide)
  · exact (c6_unknown_algorithm testPrims
      { Purpose := "login", Name := "mal3" } "pw").2.2 "login" "mal3"
      "AAAA" "AAAA" "" ""

/-- Scenario credential for C2: a token credential stored for secret
"xyz" with the `plain` algorithm (the impossible `none` arm returns the
default credential). -/
def c2TokenCred : Credential :=
  match Auth.NewCredential testPrims (New [7]) "token" "label" "xyz"
      ["plain"] [] "" [] [] with
  | some c => c
  | none => {}

/-- Scenario store for C2: the token credential cached in a fresh
store. -/
def c2Auth : Auth :=
  Auth.CacheCredential (New [7]) c2TokenCred

/-- C2: `Auth.Verify` applies the documented precedence — a hit in the
credentials index delegates to that credential and never reaches the
token path; otherwise an empty secret swaps the fields; then the
(possibly swapped) name is retried as a bearer token exactly when it is
in the allow-list (whose default is `""`, `"api"`, `"apikey"`), else
NotFound; and a token stored for secret "xyz" presented as
`("api", "xyz")` verifies successfully. -/
theorem c2_verify_precedence (P : CryptoPrims) (a : Auth)
    (name secret : String) :
    (∀ c, mapFind a.credentials name = some c →
      a.Verify P name secret = Credential.Verify P c secret) ∧
    (mapFind a.credentials name = none → secret ≠ "" →
      a.Verify P name secret =
        if name ∈ a.BasicAuthTokenNames then a.VerifyToken P secret
        else .notFound) ∧
    (mapFind a.credentials name = none → secret = "" →
      a.Verify P name secret =
        if "" ∈ a.BasicAuthTokenNames then a.VerifyToken P name
        else .notFound) ∧
    (∀ key, (New key).BasicAuthTokenNames = ["", "api", "apikey"]) ∧
    Auth.Verify testPrims c2Auth "api" "xyz" = .ok := by
  refine ⟨?_, ?_, ?_, fun key => rfl, ?_⟩
  · intro c hc
    unfold Auth.Verify
    rw [hc]
  · intro hmiss hne
    unfold Auth.Verify
    rw [hmiss]
    simp [hne]
  · intro hmiss he
    unfold Auth.Verify
    rw [hmiss]
    subst he
    simp
  · decide

theorem c2_verify_precedence_witness :
    Auth.Verify testPrims (New []) "nobody" "pw" = .notFound ∧
    Auth.Verify testPrims c2Auth "api" "xyz" = .ok := by
  constructor
  · have h := (c2_verify_precedence testPrims (New []) "nobody" "pw").2.1
      rfl (by decide)
    simpa using h
  · exact (c2_verify_precedence testPrims (New []) "x" "y").2.2.2.2

/-- A token credential as loaded from a record: `aes-128-gcm` with an
unpopulated plaintext cache and a ciphertext that decrypts (under
`testPrims`) to "xyz". -/
def c8TokenCred : Credential :=
  { Purpose := "token", Name := "t", Params := ["aes-128-gcm"],
    Salt := List.replicate 12 0, Derived := goBytes "xyz" }

/-- A store whose token index holds `c8TokenCred` under the fingerprint
of "xyz". -/
def c8Auth : Auth :=
  { New [] with
      tokens := [(Auth.tokenCacheID testPrims (New []) "xyz", c8TokenCred)] }

/-- C8 counterexample: on a fingerprint hit `VerifyToken` does not
simply delegate to the found credential's verify — it first populates
the plaintext cache by decrypting, so for an undecrypted `aes-128-gcm`
token it succeeds while the found credential's own verify would report
Locked. -/
theorem c8_counterexample :
    Auth.VerifyToken testPrims c8Auth "xyz" = .ok ∧
    mapFind c8Auth.tokens (Auth.tokenCacheID testPrims c8Auth "xyz")
      = some c8TokenCred ∧
    Credential.Verify testPrims c8TokenCred "xyz" = .locked ∧
    Auth.VerifyToken testPrims c8Auth "xyz"
      ≠ Credential.Verify testPrims c8TokenCred "xyz" := by
  refine ⟨by decide, by decide, by decide, by decide⟩

/-- C8 amended: `VerifyToken` computes the fingerprint — the first 6
raw bytes of the keyed hash of the secret (never of the name),
base64url-encoded — and looks it up; a miss returns NotFound; a hit
with a populated plaintext cache delegates to the credential's verify
with the secret as candidate; a hit with an empty cache first runs
`maybeDecrypt` and either propagates the decryption failure or
delegates to the cache-populated credential's verify. -/
theorem c8_verify_token (P : CryptoPrims) (a : Auth) (secret : String) :
    (Auth.tokenCacheID P a secret =
      b64encode ((P.hmacSha256 a.aes128key (goBytes secret)).take 6)) ∧
    ((P.hmacSha256 a.aes128key (goBytes secret)).length = 32 →
      ((P.hmacSha256 a.aes128key (goBytes secret)).take 6).length = 6) ∧
    (mapFind a.tokens (a.tokenCacheID P secret) = none →
      a.VerifyToken P secret = .notFound) ∧
    (∀ c, mapFind a.tokens (a.tokenCacheID P secret) = some c →
      c.plain ≠ "" →
      a.VerifyToken P secret = Credential.Verify P c secret) ∧
    (∀ c, mapFind a.tokens (a.tokenCacheID P secret) = some c →
      c.plain = "" →
      a.VerifyToken P secret =
        match a.maybeDecrypt P c with
        | .panics => .panics
        | .err => .decryptFailed
        | .ok plain =>
            Credential.Verify P { c with plain := plain } secret) := by
  refine ⟨rfl, ?_, ?_, ?_, ?_⟩
  · intro hlen
    simp [List.length_take, hlen]
  · intro hmiss
    unfold Auth.VerifyToken
    rw [hmiss]
  · intro c hc hplain
    unfold Auth.VerifyToken
    rw [hc]
    simp [hplain]
  · intro c hc hplain
    unfold Auth.VerifyToken
    rw [hc]
    simp [hplain]

theorem c8_verify_token_witness :
    Auth.VerifyToken testPrims (New []) "tok" = .notFound ∧
    ((testPrims.hmacSha256 (New []).aes128key (goBytes "tok")).take
      6).length = 6 ∧
    Auth.VerifyToken testPrims c2Auth "xyz"
      = Credential.Verify testPrims c2TokenCred "xyz" ∧
    Auth.VerifyToken testPrims c8Auth "xyz" = .ok := by
  refine ⟨?_, ?_, ?_, ?_⟩
  · exact (c8_verify_token testPrims (New []) "tok").2.2.1 rfl
  · exact (c8_verify_token testPrims (New []) "tok").2.1 (by decide)
  · exact (c8_verify_token testPrims c2Auth "xyz").2.2.2.1 c2TokenCred
      (by decide) (by decide)
  · have h := (c8_verify_token testPrims c8Auth "xyz").2.2.2.2
      c8TokenCred (by decide) (by decide)
    simpa using h

/-- C1 counterexample: an `aes-128-gcm` credential created from the
empty secret does not verify against its own secret — its plaintext
cache equals the empty string, so `Credential.Verify` reports Locked
instead of a match. -/
theorem c1_counterexample :
    ∃ c, Auth.NewCredential testPrims (New []) "login" "u" ""
        ["aes-128-gcm"] [] "" (List.replicate 12 0) [] = some c ∧
      Credential.Verify testPrims c "" = .locked ∧
      VerifyOutcome.locked ≠ VerifyOutcome.ok :=
  ⟨_, rfl, rfl, by decide⟩

/-- C1 amended: for each algorithm, a credential produced by
`NewCredential` verifies its own secret and rejects any candidate whose
derived comparable value differs (the idealisation of a different
secret under collision-freeness) — except that an `aes-128-gcm`
credential for the empty secret is Locked for every candidate,
including the secret itself. -/
theorem c1_correctness (P : CryptoPrims) (a : Auth)
    (name secret cand : String) (roles : List String) (extra : String)
    (nonce salt : List Nat)
    (hsha : P.sha256 cand ≠ P.sha256 secret)
    (hpb : P.pbkdf2Key "SHA-256" cand salt 1000 16
      ≠ P.pbkdf2Key "SHA-256" secret salt 1000 16)
    (hbc1 : P.bcryptCompare (P.bcryptGenerate secret 12) secret = true)
    (hbc2 : P.bcryptCompare (P.bcryptGenerate secret 12) cand = false) :
    (∃ c, a.NewCredential P "login" name secret ["plain"] roles extra
        nonce salt = some c ∧
      Credential.Verify P c secret = .ok ∧
      Credential.Verify P c cand = .unauthorized) ∧
    (∃ c, a.NewCredential P "login" name secret ["aes-128-gcm"] roles
        extra nonce salt = some c ∧
      (secret ≠ "" → Credential.Verify P c secret = .ok) ∧
      (secret = "" → Credential.Verify P c secret = .locked) ∧
      (secret ≠ "" → Credential.Verify P c cand = .unauthorized) ∧
      (secret = "" → Credential.Verify P c cand = .locked)) ∧
    (∃ c, a.NewCredential P "login" name secret ["pbkdf2"] roles extra
        nonce salt = some c ∧
      Credential.Verify P c secret = .ok ∧
      Credential.Verify P c cand = .unauthorized) ∧
    (∃ c, a.NewCredential P "login" name secret ["bcrypt"] roles extra
        nonce salt = some c ∧
      Credential.Verify P c secret = .ok ∧
      Credential.Verify P c cand = .unauthorized) := by
  have hsha2 : P.sha256 secret ≠ P.sha256 cand := fun h => hsha h.symm
  refine ⟨⟨_, rfl, ?_, ?_⟩, ⟨_, rfl, ?_, ?_, ?_, ?_⟩, ?_, ⟨_, rfl, ?_, ?_⟩⟩
  · simp [Credential.Verify]
  · simp [Credential.Verify, hsha2]
  · intro hne
    simp [Credential.Verify, hne]
  · intro he
    simp [Credential.Verify, he]
  · intro hne
    simp [Credential.Verify, hne, hsha2]
  · intro he
    simp [Credential.Verify, he]
  · refine ⟨_, rfl, ?_, ?_⟩
    · have hi : goAtoi (goItoa 1000) = some 1000 := by decide
      have hs : goAtoi (goItoa 16) = some 16 := by decide
      simp [Credential.Verify, Auth.NewCredential, hi, hs]
    · have hi : goAtoi (goItoa 1000) = some 1000 := by decide
      have hs : goAtoi (goItoa 16) = some 16 := by decide
      have hpb2 : P.pbkdf2Key "SHA-256" secret salt 1000 16
          ≠ P.pbkdf2Key "SHA-256" cand salt 1000 16 := fun h => hpb h.symm
      simp [Credential.Verify, Auth.NewCredential, hi, hs, hpb2]
  · simp [Credential.Verify, hbc1]
  · simp [Credential.Verify, hbc2]

theorem c1_correctness_witness :
    ∃ c, Auth.NewCredential testPrims (New []) "login" "u" "s" ["plain"]
        [] "" [] [] = some c ∧
      Credential.Verify testPrims c "s" = .ok ∧
      Credential.Verify testPrims c "t" = .unauthorized :=
  (c1_correctness testPrims (New []) "u" "s" "t" [] "" [] []
    (by decide) (by decide) (by decide) (by decide)).1

theorem bytesEqualLoop_first_mismatch (x y : Nat) (s1 s2 : List Nat)
    (hxy : x ≠ y) :
    ∀ pre : List Nat,
      bytesEqualLoop (pre ++ x :: s1) (pre ++ y :: s2) = pre.length + 1
  | [] => by simp [bytesEqualLoop, hxy]
  | p :: pre => by
      have ih := bytesEqualLoop_first_mismatch x y s1 s2 hxy pre
      simp [bytesEqualLoop, ih]
      omega

/-- C4 counterexample: the digest comparison on the `csvauth`
verification path is `bytes.Equal`, a short-circuiting scan — for one
and the same stored credential, two rejected candidates with
equal-length digests have their digests examined to different depths
(1 byte versus 2 bytes), so not every byte is examined regardless of
earlier mismatches, and the primitive used is not the constant-time
one. -/
theorem c4_counterexample :
    Credential.VerifyCost testPrims
      { Purpose := "login", Name := "al", plain := "aa",
        Params := ["plain"], Derived := goBytes "aa" } "ba"
      = (.unauthorized, 1) ∧
    Credential.VerifyCost testPrims
      { Purpose := "login", Name := "al", plain := "aa",
        Params := ["plain"], Derived := goBytes "aa" } "ab"
      = (.unauthorized, 2) ∧
    (testPrims.sha256 "ba").length = (testPrims.sha256 "aa").length ∧
    (testPrims.sha256 "ab").length = (testPrims.sha256 "aa").length ∧
    (1 : Nat) ≠ 2 := by
  refine ⟨by decide, by decide, by decide, by decide, by decide⟩

/-- C4 amended: the `envauth` verification path satisfies the claim —
its primitive examines every byte of equal-length inputs, and
`BasicCredentials.Verify` combines its two digest equalities through
constant-time selection, succeeding exactly when both digests match
(no short-circuit), with the empty password rejected up front.  The
`csvauth` path instead compares its fixed-size digests with
short-circuiting `bytes.Equal`, whose examined-byte count is the
position of the first mismatch, relying on prior hashing for timing
safety (the instrumented verify agrees with the plain one on
outcomes). -/
theorem c4_constant_time (P : CryptoPrims) :
    (∀ a b : List Nat, a.length = b.length → ctCompareCost a b = a.length) ∧
    (∀ (c : BasicCredentials) (u p : String), p ≠ "" →
      (BasicCredentials.Verify P c u p = .ok ↔
        P.sha256 u = P.sha256 c.Username ∧
        P.sha256 p = P.sha256 c.Password)) ∧
    (∀ (c : BasicCredentials) (u : String),
      BasicCredentials.Verify P c u "" = .unauthorized) ∧
    (∀ (c : Credential) (s : String),
      (Credential.VerifyCost P c s).1 = Credential.Verify P c s) ∧
    (∀ (pre s1 s2 : List Nat) (x y : Nat), x ≠ y →
      s1.length = s2.length →
      bytesEqualCost (pre ++ x :: s1) (pre ++ y :: s2) = pre.length + 1) := by
  refine ⟨?_, ?_, ?_, VerifyCost_fst P, ?_⟩
  · intro a b hlen
    simp [ctCompareCost, hlen]
  · intro c u p hp
    unfold BasicCredentials.Verify
    simp only [if_neg hp]
    have hsel : ∀ v1 v2 : Nat,
        ctSelect v2 (ctSelect v1 1 0) 0 = v2 * v1 := by
      intro v1 v2
      simp [ctSelect]
    rw [hsel]
    constructor
    · intro h
      by_cases hone : ctCompare (P.sha256 c.Username) (P.sha256 u) *
          ctCompare (P.sha256 c.Password) (P.sha256 p) = 1
      · have h2 := mul_eq_one.mp (by
          rw [Nat.mul_comm] at hone
          exact hone)
        exact ⟨((ctCompare_eq_one_iff _ _).mp h2.2).symm,
          ((ctCompare_eq_one_iff _ _).mp h2.1).symm⟩
      · rw [if_neg (by
          intro h3
          exact hone (by rw [Nat.mul_comm]; exact h3))] at h
        exact absurd h (by decide)
    · rintro ⟨h1, h2⟩
      have hv1 : ctCompare (P.sha256 c.Username) (P.sha256 u) = 1 :=
        (ctCompare_eq_one_iff _ _).mpr h1.symm
      have hv2 : ctCompare (P.sha256 c.Password) (P.sha256 p) = 1 :=
        (ctCompare_eq_one_iff _ _).mpr h2.symm
      rw [hv1, hv2]
      rfl
  · intro c u
    unfold BasicCredentials.Verify
    simp
  · intro pre s1 s2 x y hxy hlen
    have hL : (pre ++ x :: s1).length = (pre ++ y :: s2).length := by
      simp [hlen]
    rw [bytesEqualCost, if_pos hL]
    exact bytesEqualLoop_first_mismatch x y s1 s2 hxy pre

theorem c4_constant_time_witness :
    ctCompareCost [1, 2, 3] [4, 5, 6] = 3 ∧
    BasicCredentials.Verify testPrims
      { Username := "u", Password := "p" } "u" "p" = .ok ∧
    bytesEqualCost [9, 1, 5] [9, 2, 7] = 2 := by
  have h := c4_constant_time testPrims
  refine ⟨h.1 [1, 2, 3] [4, 5, 6] rfl, ?_, ?_⟩
  · exact (h.2.1 { Username := "u", Password := "p" } "u" "p"
      (by decide)).mpr ⟨rfl, rfl⟩
  · have h3 := h.2.2.2.2 [9] [5] [7] 1 2 (by decide) rfl
    simpa using h3

/-- C7 counterexample: a structurally well-formed row (5 fields) whose
pbkdf2 iteration count is semantically invalid ("0") aborts the whole
load with an error instead of being warned about, and the following
valid row is never stored. -/
theorem c7_counterexample :
    (Auth.loadRecords testPrims (New [])
      [["login", "x", "pbkdf2 0 16 SHA-256", "AAAA", "AAAA"],
       ["login", "y", "plain", "", "sec"]]).2
      = some (.fieldsErr .invalidIters) ∧
    mapFind (Auth.loadRecords testPrims (New [])
      [["login", "x", "pbkdf2 0 16 SHA-256", "AAAA", "AAAA"],
       ["login", "y", "plain", "", "sec"]]).1.credentials "y" = none := by
  refine ⟨by decide, by decide⟩

/-- The credential stored for the C7 pbkdf2 row whose salt column is
not valid base64: the salt-decode failure is only warned about, so the
credential is kept with an empty salt and the decoded derived bytes. -/
def c7SaltWarnCred : Credential :=
  { Purpose := "login", Name := "z",
    Params := ["pbkdf2", "1000", "16", "SHA-256"], Derived := [0, 0, 0] }

/-- C7 amended: the load fails fast not only on records with fewer than
five fields but also on most semantically invalid field values (here:
an invalid pbkdf2 iteration count, and an undecodable base64 salt in an
aes row), because `LoadCSV` aborts on any `FromFields` error; only an
undecodable base64 salt (or derived value) in a pbkdf2 row is merely
warned about — the credential is stored with what could be parsed and
loading continues with the remaining rows. -/
theorem c7_load_behavior (P : CryptoPrims) (a : Auth)
    (rest : List (List String)) :
    Auth.loadRecords P a (["login", "x", "plain", ""] :: rest)
      = (a, some .shortRecord) ∧
    Auth.loadRecords P a
      (["login", "x", "pbkdf2 0 16 SHA-256", "AAAA", "AAAA"] :: rest)
      = (a, some (.fieldsErr .invalidIters)) ∧
    Auth.loadRecords P a (["login", "w", "aes-128-gcm", "!!!", "AAAA"] :: rest)
      = (a, some (.fieldsErr .badBase64)) ∧
    Auth.loadRecords P a
      (["login", "z", "pbkdf2 1000 16 SHA-256", "!!!", "AAAA"] :: rest)
      = Auth.loadRecords P
          { a with credentials := mapInsert "z" c7SaltWarnCred
                                    a.credentials } rest := by
  refine ⟨rfl, rfl, rfl, rfl⟩

theorem roles_roundtrip (roles : List String)
    (hr : ∀ r ∈ roles, plainField r ∧ r ≠ "") :
    (if goJoinSpace roles = "" then ([] : List String)
      else goSplitSpace (goReplaceCommaSpace (goJoinSpace roles))) = roles := by
  cases roles with
  | nil => rfl
  | cons r rs =>
      have hne := goJoinSpace_ne_empty r rs (hr r (by simp)).2
      rw [if_neg hne]
      exact goJoinSpace_split (r :: rs) (by simp) (fun s hs => (hr s hs).1)


/-- C9: serialising a well-formed credential with `ToRecord` and
re-parsing the record with `FromRecord` succeeds without error and
reproduces the credential on Purpose, Name, algorithm parameters,
Roles, Extra, and bit-identical Salt and DerivedValue (the transient
plaintext cache and fingerprint are excluded). -/
theorem c9_roundtrip (P : CryptoPrims) (c : Credential)
    (h : wellFormed P c = true) :
    ∃ record c2, c.ToRecord = some record ∧
      FromRecord P record = some (c2, none) ∧
      c2.Purpose = c.Purpose ∧ c2.Name = c.Name ∧ c2.Params = c.Params ∧
      c2.Roles = c.Roles ∧ c2.Extra = c.Extra ∧ c2.Salt = c.Salt ∧
      c2.Derived = c.Derived := by
  obtain ⟨cPu, cNa, cpl, cPs, cSa, cDe, cRo, cEx, chi⟩ := c
  unfold wellFormed at h
  simp only [Bool.and_eq_true, List.all_eq_true, decide_eq_true_eq,
    Bool.or_eq_true] at h
  obtain ⟨⟨⟨⟨⟨hpur, hparams⟩, hroles⟩, hsalt⟩, hder⟩, hmatch⟩ := h
  have hroles2 := roles_roundtrip cRo hroles
  split at hmatch
  · simp only [Bool.and_eq_true, decide_eq_true_eq] at hmatch
    obtain ⟨hd, hsnil⟩ := hmatch
    subst hd
    subst hsnil
    refine ⟨[cPu, cNa, "plain", "", cpl, goJoinSpace cRo, cEx],
      { Purpose := cPu, Name := cNa, plain := cpl, Params := ["plain"],
        Roles := cRo, Extra := cEx, Derived := P.sha256 cpl },
      ?_, ?_, rfl, rfl, rfl, rfl, rfl, rfl, rfl⟩
    · unfold Credential.ToRecord
      have hj : goJoinSpace ["plain"] = "plain" := rfl
      simp [if_neg hpur, hj]
    · have hsplit : goSplitSpace (goReplaceCommaSpace "plain")
          = ["plain"] := by decide
      unfold FromRecord FromFields
      simp [if_neg hpur, hsplit, hroles2]
  · refine ⟨[cPu, cNa, "aes-128-gcm", b64encode cSa, b64encode cDe,
        goJoinSpace cRo, cEx],
      { Purpose := cPu, Name := cNa, Params := ["aes-128-gcm"],
        Roles := cRo, Extra := cEx, Salt := cSa, Derived := cDe },
      ?_, ?_, rfl, rfl, rfl, rfl, rfl, rfl, rfl⟩
    · unfold Credential.ToRecord
      have hj : goJoinSpace ["aes-128-gcm"] = "aes-128-gcm" := rfl
      simp [if_neg hpur, hj]
    · have hsplit : goSplitSpace (goReplaceCommaSpace "aes-128-gcm")
          = ["aes-128-gcm"] := by decide
      unfold FromRecord FromFields
      simp [if_neg hpur, hsplit, hroles2, b64decode_b64encode cSa hsalt,
        b64decode_b64encode cDe hder]
  · rename_i p1 p2 p3
    simp only [Bool.and_eq_true, Bool.or_eq_true, decide_eq_true_eq]
      at hmatch
    obtain ⟨⟨hit, hsz⟩, hhash⟩ := hmatch
    rcases hA1 : goAtoi p1 with _ | i
    · rw [hA1] at hit
      exact absurd hit (by decide)
    rcases hA2 : goAtoi p2 with _ | sz
    · rw [hA2] at hsz
      exact absurd hsz (by decide)
    rw [hA1] at hit
    rw [hA2] at hsz
    simp only [decide_eq_true_eq] at hit hsz
    have hjoin := goJoinSpace_split ["pbkdf2", p1, p2, p3] (by simp)
      (fun s hs => (hparams s hs).1)
    refine ⟨[cPu, cNa, goJoinSpace ["pbkdf2", p1, p2, p3],
        b64encode cSa, b64encode cDe, goJoinSpace cRo, cEx],
      { Purpose := cPu, Name := cNa, Params := ["pbkdf2", p1, p2, p3],
        Roles := cRo, Extra := cEx, Salt := cSa, Derived := cDe },
      ?_, ?_, rfl, rfl, rfl, rfl, rfl, rfl, rfl⟩
    · unfold Credential.ToRecord
      simp [if_neg hpur]
    · unfold FromRecord FromFields
      simp [if_neg hpur, hjoin, hroles2,
        b64decode_b64encode cSa hsalt, b64decode_b64encode cDe hder,
        hA1, hA2, if_neg (by omega : ¬(i ≤ 0)),
        if_neg (by omega : ¬(sz < 8 ∨ 32 < sz)), hhash]
  · simp only [decide_eq_true_eq] at hmatch
    subst hmatch
    refine ⟨[cPu, cNa, "bcrypt", "", goString cDe, goJoinSpace cRo, cEx],
      { Purpose := cPu, Name := cNa, Params := ["bcrypt"], Roles := cRo,
        Extra := cEx, Derived := goBytes (goString cDe) },
      ?_, ?_, rfl, rfl, rfl, rfl, rfl, rfl, goBytes_goString cDe hder⟩
    · unfold Credential.ToRecord
      have hj : goJoinSpace ["bcrypt"] = "bcrypt" := rfl
      simp [if_neg hpur, hj]
    · have hsplit : goSplitSpace (goReplaceCommaSpace "bcrypt")
          = ["bcrypt"] := by decide
      unfold FromRecord FromFields
      simp [if_neg hpur, hsplit, hroles2]
  · simp at hmatch

theorem c9_roundtrip_witness :
    ∃ record c2,
      Credential.ToRecord
        { Purpose := "login", Name := "al", plain := "hunter2",
          Params := ["plain"], Derived := testPrims.sha256 "hunter2",
          Roles := ["admin"], Extra := "e" } = some record ∧
      FromRecord testPrims record = some (c2, none) ∧
      c2.Purpose = "login" ∧ c2.Name = "al" ∧ c2.Params = ["plain"] ∧
      c2.Roles = ["admin"] ∧ c2.Extra = "e" ∧ c2.Salt = [] ∧
      c2.Derived = testPrims.sha256 "hunter2" :=
  c9_roundtrip testPrims
    { Purpose := "login", Name := "al", plain := "hunter2",
      Params := ["plain"], Derived := testPrims.sha256 "hunter2",
      Roles := ["admin"], Extra := "e" } (by decide)
